import Mathlib

/-
Verification of the synedrion CGGMP'21 key-share data model against its
specification.

The development shallowly embeds src/synedrion/src/cggmp21/protocols/common.rs
and the context construction of src/synedrion/src/sessions.rs.

The curve layer (src/curve, not part of the sampled sources) is modelled from
the spec: secp256k1 is a cyclic group of prime order q with generator G, so a
point is represented by its discrete logarithm base G (an element of ZMod q),
scalar-times-generator is the evident map, and point addition adds exponents.
This is a group isomorphism, so every group-level statement about key shares
transfers verbatim.
-/

/-- The order of the secp256k1 group (the constant `q` of the spec). -/
def q : ℕ := 0xFFFFFFFFFFFFFFFFFFFFFFFFFFFFFFFEBAAEDCE6AF48A03BBFD25E8CD0364141

instance : NeZero q := ⟨by decide⟩

/-- Modelled from the spec: a secp256k1 scalar, an element of the field of
integers modulo the curve order `q`. -/
abbrev Scalar := ZMod q

/-- Modelled from the spec: a secp256k1 point, represented by its discrete
logarithm base the generator `G` (the group is cyclic of prime order `q`).
The identity point is represented by `0`. -/
@[ext]
structure Point where
  toExp : ZMod q
deriving DecidableEq

instance : Zero Point := ⟨⟨0⟩⟩

instance : Add Point := ⟨fun a b => ⟨a.toExp + b.toExp⟩⟩

@[simp]
theorem Point.toExp_zero : (0 : Point).toExp = 0 := rfl

@[simp]
theorem Point.toExp_add (a b : Point) : (a + b).toExp = a.toExp + b.toExp := rfl

instance : AddCommMonoid Point where
  add_assoc a b c := by ext; simp [add_assoc]
  zero_add a := by ext; simp
  add_zero a := by ext; simp
  add_comm a b := by ext; simp [add_comm]
  nsmul := nsmulRec

/-- Modelled from the spec: multiplication of the generator `G` by a scalar
(`Scalar::mul_by_generator` of the curve layer). In discrete-log
representation this sends the scalar `s` to the point with exponent `s`. -/
def Scalar.mul_by_generator (s : Scalar) : Point := ⟨s⟩

@[simp]
theorem Scalar.mul_by_generator_toExp (s : Scalar) : (Scalar.mul_by_generator s).toExp = s := rfl

theorem Scalar.mul_by_generator_add (a b : Scalar) :
    Scalar.mul_by_generator (a + b) = Scalar.mul_by_generator a + Scalar.mul_by_generator b := rfl

theorem Scalar.mul_by_generator_eq_zero_iff (s : Scalar) :
    Scalar.mul_by_generator s = 0 ↔ s = 0 := by
  constructor
  · intro h
    simpa [Scalar.mul_by_generator, Point.ext_iff] using h
  · intro h
    simp [h, Scalar.mul_by_generator]
    rfl

/-- Modelled from the spec: an ECDSA verification key is a non-identity curve
point (`k256::ecdsa::VerifyingKey`). -/
abbrev VerifyingKey := {p : Point // p ≠ 0}

/-- Modelled from the spec: converting a point to a verification key fails
exactly when the point is the identity (the infinity point). -/
def Point.to_verifying_key (p : Point) : Option VerifyingKey :=
  if h : p = 0 then none else some ⟨p, h⟩

/-- A deterministic model of a cryptographic RNG: an infinite stream of raw
draws together with the position of the next draw. Every random sampling in
the source consumes one draw and advances the position. -/
structure Rng where
  stream : ℕ → ℕ
  pos : ℕ

/-- Modelled from the spec: `Scalar::random` samples one scalar from the RNG. -/
def Scalar.random (rng : Rng) : Scalar × Rng :=
  ((rng.stream rng.pos : ZMod q), ⟨rng.stream, rng.pos + 1⟩)

/-- Draw `n` scalars in sequence from the RNG. -/
def drawScalars : ℕ → Rng → List Scalar × Rng
  | 0, rng => ([], rng)
  | n + 1, rng =>
    let pair := Scalar.random rng
    let rest := drawScalars n pair.2
    (pair.1 :: rest.1, rest.2)

/-- Modelled from the spec: `Scalar::split` (curve layer, not under src/)
produces `num` additive shares of `self`: `num - 1` freshly random scalars and
a final share chosen so that the shares sum to `self`. -/
def Scalar.split (s : Scalar) (rng : Rng) (num : ℕ) : List Scalar × Rng :=
  let parts := drawScalars (num - 1) rng
  (parts.1 ++ [s - parts.1.sum], parts.2)

/-- Modelled from the spec: the Paillier layer is an external collaborator;
only the shape of key sampling matters to the claims, so a secret key is
identified with the raw draw that produced it. -/
structure SecretKeyPaillier where
  seed : ℕ
deriving DecidableEq

/-- Modelled from the spec: a Paillier public key, derived from its secret key. -/
structure PublicKeyPaillier where
  seed : ℕ
deriving DecidableEq

/-- Modelled from the spec: `SecretKeyPaillier::random` consumes one RNG draw. -/
def SecretKeyPaillier.random (rng : Rng) : SecretKeyPaillier × Rng :=
  (⟨rng.stream rng.pos⟩, ⟨rng.stream, rng.pos + 1⟩)

def SecretKeyPaillier.public_key (sk : SecretKeyPaillier) : PublicKeyPaillier :=
  ⟨sk.seed⟩

/-- Modelled from the spec: a k256 ECDSA signing key wraps a nonzero scalar. -/
abbrev SigningKey := {s : Scalar // s ≠ 0}

/-- Modelled from the spec: the verifying key of a signing key is the secret
scalar times the generator. -/
def SigningKey.verifying_key_point (sk : SigningKey) : Point :=
  Scalar.mul_by_generator sk.1

/-- `PartyIdx` from common.rs: a newtype over `u32`.
`val` carries the underlying integer. -/
structure PartyIdx where
  val : ℕ
deriving DecidableEq

/-- `PartyIdx::as_usize`: the inner `u32` widened to `usize` (never fails for
values constructed through `from_usize`). -/
def PartyIdx.as_usize (p : PartyIdx) : ℕ := p.val

/-- `PartyIdx::from_usize`: `val.try_into().unwrap()` converts a `usize` to a
`u32`, panicking when the value does not fit in 32 bits. The panic is
modelled as `none`. -/
def PartyIdx.from_usize (v : ℕ) : Option PartyIdx :=
  if v < 2 ^ 32 then some ⟨v⟩ else none

/-- `KeyShareSeed` from common.rs: the result of the KeyGen protocol. -/
structure KeyShareSeed where
  secret_share : Scalar
  public_shares : List Point

/-- `SecretAuxInfo` from common.rs. -/
structure SecretAuxInfo where
  paillier_sk : SecretKeyPaillier
  el_gamal_sk : Scalar
deriving DecidableEq

/-- `PublicAuxInfo` from common.rs. `DoubleUint` values are modelled as
natural numbers. -/
structure PublicAuxInfo where
  el_gamal_pk : Point
  paillier_pk : PublicKeyPaillier
  rp_generator : ℕ
  rp_power : ℕ
deriving DecidableEq

/-- `KeyShare` from common.rs. -/
structure KeyShare where
  index : PartyIdx
  secret_share : Scalar
  public_shares : List Point
  secret_aux : SecretAuxInfo
  public_aux : List PublicAuxInfo
deriving DecidableEq

/-- `KeyShareChange` from common.rs: the result of the Auxiliary Info and Key
Refresh protocol. -/
structure KeyShareChange where
  index : PartyIdx
  secret_share_change : Scalar
  public_share_changes : List Point
  secret_aux : SecretAuxInfo
  public_aux : List PublicAuxInfo
deriving DecidableEq

/-- `PresigningData` from common.rs: the result of the Presigning protocol.
The source derives `Clone` for it. -/
structure PresigningData where
  nonce : Point
  ephemeral_scalar_share : Scalar
  product_share : Scalar
deriving DecidableEq

/-- `KeyShare::new` (common.rs lines 98-114). The source performs no
consistency check between `seed` and `change` (its TODO comment admits this);
`iter().zip(...)` truncates to the shorter list, exactly as `List.zipWith`. -/
def KeyShare.new (seed : KeyShareSeed) (change : KeyShareChange) : KeyShare where
  index := change.index
  secret_share := seed.secret_share + change.secret_share_change
  public_shares :=
    List.zipWith (fun public_share public_share_change => public_share + public_share_change)
      seed.public_shares change.public_share_changes
  secret_aux := change.secret_aux
  public_aux := change.public_aux

/-- `make_secret_aux`: the first half of `make_aux_info` (common.rs lines
207-212), sampling one Paillier secret key and one ElGamal secret scalar per
party. -/
def make_secret_aux : ℕ → Rng → List SecretAuxInfo × Rng
  | 0, rng => ([], rng)
  | n + 1, rng =>
    let psk := SecretKeyPaillier.random rng
    let egsk := Scalar.random psk.2
    let rest := make_secret_aux n egsk.2
    ({ paillier_sk := psk.1, el_gamal_sk := egsk.1 } :: rest.1, rest.2)

/-- `make_aux_info` (common.rs lines 203-225). Note that the source sets both
ring-Pedersen fields to `DoubleUint::ZERO` with a TODO comment saying they are
currently unused in the protocol. -/
def make_aux_info (rng : Rng) (num_parties : ℕ) :
    List SecretAuxInfo × List PublicAuxInfo × Rng :=
  let secret_aux := make_secret_aux num_parties rng
  let public_aux := secret_aux.1.map (fun secret =>
    { paillier_pk := secret.paillier_sk.public_key
      el_gamal_pk := Scalar.mul_by_generator secret.el_gamal_sk
      rp_generator := 0
      rp_power := 0 : PublicAuxInfo })
  (secret_aux.1, public_aux, secret_aux.2)

/-- The secret chosen at the start of `KeyShare::new_centralized` (common.rs
lines 123-126): the supplied signing key's scalar, or a fresh random scalar. -/
def centralized_secret_rng (rng : Rng) (signing_key : Option SigningKey) : Scalar × Rng :=
  match signing_key with
  | none => Scalar.random rng
  | some sk => (sk.1, rng)

/-- `KeyShare::new_centralized` (common.rs lines 118-148). The share at
position `idx` gets index `idx` (`PartyIdx::from_usize(idx)`, which succeeds
since `idx` is below the number of parties, itself below `2^32` whenever the
construction is exercised), the `idx`-th secret share, and the common lists
of public shares and public aux info. -/
def KeyShare.new_centralized (rng : Rng) (num_parties : ℕ)
    (signing_key : Option SigningKey) : List KeyShare :=
  let secret := (centralized_secret_rng rng signing_key).1
  let rng1 := (centralized_secret_rng rng signing_key).2
  let secret_shares := (Scalar.split secret rng1 num_parties).1
  let rng2 := (Scalar.split secret rng1 num_parties).2
  let public_shares := secret_shares.map Scalar.mul_by_generator
  let aux := make_aux_info rng2 num_parties
  aux.1.enum.map (fun p =>
    { index := ⟨p.1⟩
      secret_share := secret_shares.getD p.1 0
      public_shares := public_shares
      secret_aux := p.2
      public_aux := aux.2.1 })

/-- `KeyShare::update` (common.rs lines 150-166). Like `new`, the source
performs no consistency check and `zip` truncates. -/
def KeyShare.update (self : KeyShare) (change : KeyShareChange) : KeyShare where
  index := change.index
  secret_share := self.secret_share + change.secret_share_change
  public_shares :=
    List.zipWith (fun public_share public_share_change => public_share + public_share_change)
      self.public_shares change.public_share_changes
  secret_aux := change.secret_aux
  public_aux := change.public_aux

/-- `KeyShare::verifying_key_as_point` (common.rs lines 168-170). -/
def KeyShare.verifying_key_as_point (self : KeyShare) : Point :=
  self.public_shares.sum

/-- `KeyShare::verifying_key` (common.rs lines 172-176): converts the sum of
the public shares to a verifying key and unwraps; the panic of the unwrap is
modelled as `none`. -/
def KeyShare.verifying_key (self : KeyShare) : Option VerifyingKey :=
  self.verifying_key_as_point.to_verifying_key

/-- `KeyShare::num_parties` (common.rs lines 178-182). -/
def KeyShare.num_parties (self : KeyShare) : ℕ :=
  self.public_shares.length

/-- `KeyShare::party_index` (common.rs lines 184-188). -/
def KeyShare.party_index (self : KeyShare) : PartyIdx :=
  self.index

/-- Big-endian interpretation of a byte string as a natural number (the spec
fixes big-endian encoding for integers). -/
def bytesToNatBE (bs : List ℕ) : ℕ :=
  bs.foldl (fun acc b => acc * 256 + b) 0

/-- Modelled from the spec: `Scalar::from_reduced_bytes` (curve layer, not
under src/) interprets a 32-byte string as an integer and reduces it modulo
the curve order. -/
def Scalar.from_reduced_bytes (bs : List ℕ) : Scalar :=
  (bytesToNatBE bs : ZMod q)

/-- `interactive_signing::Context`: the context stored by an interactive
signing session (a key share and the message scalar). -/
structure InteractiveSigningContext where
  key_share : KeyShare
  message : Scalar
deriving DecidableEq

/-- `make_interactive_signing_session` (sessions.rs lines 65-94), restricted
to the context it builds: the message scalar obtained by reduction of the
prehashed bytes and a clone of the supplied key share (cloning is the
identity under value semantics). The surrounding `SendingState::new`
machinery is not part of the sampled sources. -/
def make_interactive_signing_session (key_share : KeyShare)
    (prehashed_message : List ℕ) : InteractiveSigningContext :=
  { key_share := key_share
    message := Scalar.from_reduced_bytes prehashed_message }

/-! ## Helper lemmas -/

theorem Point.toExp_sum (l : List Point) : l.sum.toExp = (l.map Point.toExp).sum := by
  induction l with
  | nil => rfl
  | cons x xs ih => simp [ih]

theorem sum_zipWith_point_add (a b : List Point) (h : a.length = b.length) :
    (List.zipWith (fun x y => x + y) a b).sum = a.sum + b.sum := by
  induction a generalizing b with
  | nil =>
    cases b with
    | nil => simp
    | cons y ys => simp at h
  | cons x xs ih =>
    cases b with
    | nil => simp at h
    | cons y ys =>
      have h' : xs.length = ys.length := by simpa using h
      simp only [List.zipWith_cons_cons, List.sum_cons, ih ys h']
      abel

theorem sum_map_mul_by_generator (l : List Scalar) :
    (l.map Scalar.mul_by_generator).sum = Scalar.mul_by_generator l.sum := by
  induction l with
  | nil => rfl
  | cons x xs ih =>
    simp only [List.map_cons, List.sum_cons, ih]
    ext
    simp

theorem drawScalars_length (n : ℕ) (rng : Rng) : (drawScalars n rng).1.length = n := by
  induction n generalizing rng with
  | zero => rfl
  | succ k ih => simp [drawScalars, ih]

theorem split_length (s : Scalar) (rng : Rng) (num : ℕ) (h : 1 ≤ num) :
    (Scalar.split s rng num).1.length = num := by
  simp [Scalar.split, drawScalars_length]
  omega

theorem split_sum (s : Scalar) (rng : Rng) (num : ℕ) :
    (Scalar.split s rng num).1.sum = s := by
  simp [Scalar.split]

theorem make_secret_aux_length (n : ℕ) (rng : Rng) :
    (make_secret_aux n rng).1.length = n := by
  induction n generalizing rng with
  | zero => rfl
  | succ k ih => simp [make_secret_aux, ih]

/-! ## Concrete values used by witnesses and counterexamples -/

/-- A concrete secret aux info value. -/
def aux0 : SecretAuxInfo := { paillier_sk := ⟨0⟩, el_gamal_sk := 0 }

/-- A concrete seed over one party. -/
def seed1 : KeyShareSeed :=
  { secret_share := 1, public_shares := [Scalar.mul_by_generator 1] }

/-- A concrete seed over two parties. -/
def seed2 : KeyShareSeed :=
  { secret_share := 1, public_shares := [Scalar.mul_by_generator 1, Scalar.mul_by_generator 2] }

/-- A concrete change over two parties whose public share changes sum to the
identity, claiming party index 5. -/
def change2 : KeyShareChange :=
  { index := ⟨5⟩, secret_share_change := 2,
    public_share_changes := [(0 : Point), 0], secret_aux := aux0, public_aux := [] }

/-- A concrete change over one party. -/
def change1 : KeyShareChange :=
  { index := ⟨0⟩, secret_share_change := 0,
    public_share_changes := [(0 : Point)], secret_aux := aux0, public_aux := [] }

/-- A concrete key share over two parties. -/
def ks2 : KeyShare :=
  { index := ⟨0⟩, secret_share := 1,
    public_shares := [Scalar.mul_by_generator 1, Scalar.mul_by_generator 2],
    secret_aux := aux0, public_aux := [] }

/-- A concrete RNG state. -/
def rng0 : Rng := ⟨fun _ => 1, 0⟩

/-- A concrete signing key. -/
def sk1 : SigningKey := ⟨1, by decide⟩

/-! ## Claims -/

/-- Claim C1: the claim says `KeyShare::new` asserts that seed and change have
the same party index and the same number of parties, returning a `LocalError`
otherwise. The code has no such check (common.rs line 99 is a TODO admitting
it): applied to a seed over one party and a change claiming index 5 over two
parties, `new` constructs and returns a key share (with the change's index and
a truncated share list) instead of failing. -/
theorem keyShare_new_no_consistency_check :
    (KeyShare.new seed1 change2).index = ⟨5⟩ ∧
    (KeyShare.new seed1 change2).num_parties = 1 ∧
    seed1.public_shares.length ≠ change2.public_share_changes.length := by
  refine ⟨rfl, rfl, by decide⟩

/-- Claim C2: updating a key share with a change over the same number of
parties whose public share changes sum to the identity point leaves the
verifying key point (the sum of the public shares) unchanged. -/
theorem update_preserves_verifying_key (ks : KeyShare) (change : KeyShareChange)
    (hlen : ks.public_shares.length = change.public_share_changes.length)
    (hsum : change.public_share_changes.sum = 0) :
    (ks.update change).verifying_key_as_point = ks.verifying_key_as_point := by
  simp [KeyShare.update, KeyShare.verifying_key_as_point,
    sum_zipWith_point_add _ _ hlen, hsum]

/-- Witness for C2 at a concrete share and change. -/
theorem update_preserves_verifying_key_witness :
    (ks2.update change2).verifying_key_as_point = ks2.verifying_key_as_point :=
  update_preserves_verifying_key ks2 change2 (by decide) (by decide)

/-- Claim C4: for a seed and change over the same number of parties,
`KeyShare::new` adds the secret share change to the seed's secret share, adds
the public share changes pointwise to the seed's public shares, and takes the
index and both aux fields from the change. -/
theorem keyShare_new_spec (seed : KeyShareSeed) (change : KeyShareChange)
    (hlen : seed.public_shares.length = change.public_share_changes.length) :
    (KeyShare.new seed change).secret_share = seed.secret_share + change.secret_share_change ∧
    (KeyShare.new seed change).index = change.index ∧
    (KeyShare.new seed change).secret_aux = change.secret_aux ∧
    (KeyShare.new seed change).public_aux = change.public_aux ∧
    ∀ j, j < seed.public_shares.length →
      (KeyShare.new seed change).public_shares.getD j 0 =
        seed.public_shares.getD j 0 + change.public_share_changes.getD j 0 := by
  refine ⟨rfl, rfl, rfl, rfl, ?_⟩
  intro j hj
  have hj2 : j < change.public_share_changes.length := hlen ▸ hj
  have hjz : j < (KeyShare.new seed change).public_shares.length := by
    simp [KeyShare.new, hj, hj2]
  rw [List.getD_eq_getElem _ _ hjz, List.getD_eq_getElem _ _ hj, List.getD_eq_getElem _ _ hj2]
  simp [KeyShare.new]

/-- Witness for C4 at a concrete seed and change. -/
theorem keyShare_new_spec_witness :
    (KeyShare.new seed2 change2).secret_share = seed2.secret_share + change2.secret_share_change ∧
    (KeyShare.new seed2 change2).index = change2.index ∧
    (KeyShare.new seed2 change2).secret_aux = change2.secret_aux ∧
    (KeyShare.new seed2 change2).public_aux = change2.public_aux ∧
    ∀ j, j < seed2.public_shares.length →
      (KeyShare.new seed2 change2).public_shares.getD j 0 =
        seed2.public_shares.getD j 0 + change2.public_share_changes.getD j 0 :=
  keyShare_new_spec seed2 change2 (by decide)

/-- Claim C8: `KeyShare::verifying_key` succeeds exactly when the sum of the
public shares is not the identity point, and returns that sum as the key; the
unwrap can only panic when the sum is the identity. -/
theorem verifying_key_spec (ks : KeyShare) :
    (ks.verifying_key_as_point ≠ 0 →
      Option.map Subtype.val ks.verifying_key = some ks.verifying_key_as_point) ∧
    (ks.verifying_key = none ↔ ks.verifying_key_as_point = 0) := by
  constructor
  · intro h
    simp [KeyShare.verifying_key, Point.to_verifying_key, h]
  · constructor
    · intro h
      by_contra hne
      simp [KeyShare.verifying_key, Point.to_verifying_key, hne] at h
    · intro h
      simp [KeyShare.verifying_key, Point.to_verifying_key, h]

/-- Witness for C8 at a concrete share with non-identity verifying key point. -/
theorem verifying_key_spec_witness :
    Option.map Subtype.val ks2.verifying_key = some ks2.verifying_key_as_point :=
  (verifying_key_spec ks2).1 (by decide)

/-- Claim C9: when the two public share lists have different lengths, `new`
and `update` do not fail; they truncate to the shorter list, and
`num_parties` reports the truncated length. -/
theorem mismatched_lengths_truncate (seed : KeyShareSeed) (change : KeyShareChange)
    (ks : KeyShare) (change' : KeyShareChange)
    (_h1 : seed.public_shares.length ≠ change.public_share_changes.length)
    (_h2 : ks.public_shares.length ≠ change'.public_share_changes.length) :
    (KeyShare.new seed change).num_parties =
      min seed.public_shares.length change.public_share_changes.length ∧
    (ks.update change').num_parties =
      min ks.public_shares.length change'.public_share_changes.length := by
  constructor
  · simp [KeyShare.new, KeyShare.num_parties]
  · simp [KeyShare.update, KeyShare.num_parties]

/-- Witness for C9 at concrete mismatched inputs. -/
theorem mismatched_lengths_truncate_witness :
    (KeyShare.new seed1 change2).num_parties =
      min seed1.public_shares.length change2.public_share_changes.length ∧
    (ks2.update change1).num_parties =
      min ks2.public_shares.length change1.public_share_changes.length :=
  mismatched_lengths_truncate seed1 change2 ks2 change1 (by decide) (by decide)

/-- Claim C10: `PartyIdx::from_usize` round-trips with `as_usize` on values
below `2^32` (and is injective there), and panics (modelled as `none`) on
values of `2^32` and above. -/
theorem partyIdx_from_usize_spec (v w : ℕ) :
    (v < 2 ^ 32 → Option.map PartyIdx.as_usize (PartyIdx.from_usize v) = some v) ∧
    (v < 2 ^ 32 → w < 2 ^ 32 → PartyIdx.from_usize v = PartyIdx.from_usize w → v = w) ∧
    (2 ^ 32 ≤ v → PartyIdx.from_usize v = none) := by
  refine ⟨?_, ?_, ?_⟩
  · intro h
    rw [PartyIdx.from_usize, if_pos h]
    rfl
  · intro hv hw heq
    rw [PartyIdx.from_usize, PartyIdx.from_usize, if_pos hv, if_pos hw] at heq
    exact congrArg PartyIdx.val (Option.some.inj heq)
  · intro h
    rw [PartyIdx.from_usize, if_neg (Nat.not_lt.2 h)]

/-- Witness for C10 at a value that fits in 32 bits and one that does not. -/
theorem partyIdx_from_usize_spec_witness :
    Option.map PartyIdx.as_usize (PartyIdx.from_usize 7) = some 7 ∧
    PartyIdx.from_usize (2 ^ 32) = none :=
  ⟨(partyIdx_from_usize_spec 7 7).1 (by decide),
   (partyIdx_from_usize_spec (2 ^ 32) 0).2.2 (by decide)⟩

/-- Structure of any member of the output of `KeyShare::new_centralized`: it is
the share at some position `i` below the number of parties, carrying index
`i`, the `i`-th secret share of the split, and the common public share list. -/
theorem new_centralized_mem (rng : Rng) (n : ℕ) (sk? : Option SigningKey)
    (ks : KeyShare) (hks : ks ∈ KeyShare.new_centralized rng n sk?) :
    ∃ i, i < n ∧
      ks.index = ⟨i⟩ ∧
      ks.secret_share =
        (Scalar.split (centralized_secret_rng rng sk?).1
          (centralized_secret_rng rng sk?).2 n).1.getD i 0 ∧
      ks.public_shares =
        (Scalar.split (centralized_secret_rng rng sk?).1
          (centralized_secret_rng rng sk?).2 n).1.map Scalar.mul_by_generator := by
  simp only [KeyShare.new_centralized, List.mem_map] at hks
  obtain ⟨p, hp, rfl⟩ := hks
  obtain ⟨i, a⟩ := p
  have hi := (List.mem_enum hp).1
  have hlen : (make_aux_info (Scalar.split (centralized_secret_rng rng sk?).1
      (centralized_secret_rng rng sk?).2 n).2 n).1.length = n := by
    simpa [make_aux_info] using
      make_secret_aux_length n (Scalar.split (centralized_secret_rng rng sk?).1
        (centralized_secret_rng rng sk?).2 n).2
  exact ⟨i, hlen ▸ hi, rfl, rfl, rfl⟩

/-- Claim C3: for at least two parties, all shares produced by
`KeyShare::new_centralized` have the same verifying key point, namely the
shared secret times the generator; each share's secret share times the
generator is its own public share; and when a signing key is supplied the
common point is non-identity and equals that key's verifying key point. -/
theorem new_centralized_consistent (rng : Rng) (num_parties : ℕ)
    (signing_key : Option SigningKey) (hnp : 2 ≤ num_parties) :
    (∀ ks ∈ KeyShare.new_centralized rng num_parties signing_key,
        ks.verifying_key_as_point =
          Scalar.mul_by_generator (centralized_secret_rng rng signing_key).1 ∧
        ks.num_parties = num_parties ∧
        ks.index.val < num_parties ∧
        Scalar.mul_by_generator ks.secret_share = ks.public_shares.getD ks.index.val 0) ∧
    (∀ sk : SigningKey, signing_key = some sk →
        ∀ ks ∈ KeyShare.new_centralized rng num_parties signing_key,
          ks.verifying_key_as_point ≠ 0 ∧
          ks.verifying_key_as_point = SigningKey.verifying_key_point sk) := by
  have h1 : 1 ≤ num_parties := le_trans (by norm_num) hnp
  have hsum := split_sum (centralized_secret_rng rng signing_key).1
    (centralized_secret_rng rng signing_key).2 num_parties
  have hlen := split_length (centralized_secret_rng rng signing_key).1
    (centralized_secret_rng rng signing_key).2 num_parties h1
  have hmain : ∀ ks ∈ KeyShare.new_centralized rng num_parties signing_key,
      ks.verifying_key_as_point =
        Scalar.mul_by_generator (centralized_secret_rng rng signing_key).1 ∧
      ks.num_parties = num_parties ∧
      ks.index.val < num_parties ∧
      Scalar.mul_by_generator ks.secret_share = ks.public_shares.getD ks.index.val 0 := by
    intro ks hks
    obtain ⟨i, hi, hidx, hsec, hpub⟩ := new_centralized_mem rng num_parties signing_key ks hks
    have hvk : ks.verifying_key_as_point =
        Scalar.mul_by_generator (centralized_secret_rng rng signing_key).1 := by
      rw [KeyShare.verifying_key_as_point, hpub, sum_map_mul_by_generator, hsum]
    refine ⟨hvk, ?_, ?_, ?_⟩
    · rw [KeyShare.num_parties, hpub, List.length_map, hlen]
    · rw [hidx]
      exact hi
    · rw [hsec, hidx, hpub]
      exact (List.getD_map _ 0 Scalar.mul_by_generator).symm
  refine ⟨hmain, ?_⟩
  rintro sk rfl ks hks
  obtain ⟨hvk, -, -, -⟩ := hmain ks hks
  have hsecret : (centralized_secret_rng rng (some sk)).1 = sk.1 := rfl
  rw [hvk, hsecret]
  refine ⟨?_, rfl⟩
  rw [Ne, Scalar.mul_by_generator_eq_zero_iff]
  exact sk.2

/-- Witness for C3 at two parties, a concrete RNG, and a concrete signing key. -/
theorem new_centralized_consistent_witness :
    (∀ ks ∈ KeyShare.new_centralized rng0 2 (some sk1),
        ks.verifying_key_as_point =
          Scalar.mul_by_generator (centralized_secret_rng rng0 (some sk1)).1 ∧
        ks.num_parties = 2 ∧
        ks.index.val < 2 ∧
        Scalar.mul_by_generator ks.secret_share = ks.public_shares.getD ks.index.val 0) ∧
    (∀ sk : SigningKey, some sk1 = some sk →
        ∀ ks ∈ KeyShare.new_centralized rng0 2 (some sk1),
          ks.verifying_key_as_point ≠ 0 ∧
          ks.verifying_key_as_point = SigningKey.verifying_key_point sk) :=
  new_centralized_consistent rng0 2 (some sk1) (by decide)

/-- Claim C6: the claim says `make_aux_info` chooses ring-Pedersen parameters
with `s_i` a power of `t_i` modulo `N_i` with secret exponent; the code
instead sets both fields to zero (with a TODO comment marking them unused),
and zero lies in no multiplicative group modulo any modulus of at least two,
contradicting the code's own field documentation. -/
theorem make_aux_info_rp_params_zero (rng : Rng) (num_parties : ℕ) :
    ∀ pa ∈ (make_aux_info rng num_parties).2.1,
      pa.rp_generator = 0 ∧ pa.rp_power = 0 ∧
      ∀ N : ℕ, 2 ≤ N → ¬ IsUnit ((pa.rp_power : ZMod N)) := by
  intro pa hpa
  simp only [make_aux_info, List.mem_map] at hpa
  obtain ⟨s, hs, rfl⟩ := hpa
  refine ⟨rfl, rfl, ?_⟩
  intro N hN
  haveI : Fact (1 < N) := ⟨hN⟩
  simp only [Nat.cast_zero]
  exact not_isUnit_zero

/-- A concrete public aux info value, the one produced for a single party from
the concrete RNG. -/
def pa0 : PublicAuxInfo :=
  { el_gamal_pk := Scalar.mul_by_generator 1, paillier_pk := ⟨1⟩,
    rp_generator := 0, rp_power := 0 }

/-- Witness for C6 at a concrete RNG and one party. -/
theorem make_aux_info_rp_params_zero_witness :
    pa0 ∈ (make_aux_info rng0 1).2.1 ∧
    (pa0.rp_generator = 0 ∧ pa0.rp_power = 0 ∧
      ∀ N : ℕ, 2 ≤ N → ¬ IsUnit ((pa0.rp_power : ZMod N))) :=
  ⟨by decide, make_aux_info_rp_params_zero rng0 1 pa0 (by decide)⟩

/-- Claim C7: the interactive signing session interprets the 32-byte prehashed
message as its big-endian integer value reduced modulo the curve order, and
the context it builds stores exactly this reduced scalar together with the
supplied key share. -/
theorem interactive_signing_context_spec (key_share : KeyShare) (m : List ℕ)
    (_hlen : m.length = 32) :
    ((make_interactive_signing_session key_share m).message).val = bytesToNatBE m % q ∧
    (make_interactive_signing_session key_share m).key_share = key_share := by
  refine ⟨?_, rfl⟩
  simp [make_interactive_signing_session, Scalar.from_reduced_bytes, ZMod.val_natCast]

/-- A concrete 32-byte message. -/
def m0 : List ℕ := List.replicate 32 0

/-- Witness for C7 at a concrete key share and message. -/
theorem interactive_signing_context_spec_witness :
    ((make_interactive_signing_session ks2 m0).message).val = bytesToNatBE m0 % q ∧
    (make_interactive_signing_session ks2 m0).key_share = ks2 :=
  interactive_signing_context_spec ks2 m0 (by decide)
